import Mathlib

/-!
# Verification of the exchange order book and matching engine

Shallow embedding of the Go repository `xtrntr/exchange`:

* `internal/exchange` (source file `src/unnamed/part_002`): the in-memory
  order book (`Exchange`), `AddOrder`, `MatchOrder`, `cleanupOrderBook`.
* `internal/db` (source file `src/unnamed/part_001`): the `CancelOrder`
  transaction against the `orders` table.
* `internal/api/handlers.go`: the persistence sequence performed by
  `PlaceOrder` after matching.

Go `float64` prices and quantities are embedded as rational numbers.
Every IEEE-754 binary64 value (finite) is a rational, literals are the
binary64 rounding of their decimal value, and the single arithmetic
operation the engine performs on them (`-=`) is exact subtraction followed
by round-to-nearest-even, which `f64TowardNearest` models for values in the
normal range (all values in this development are far from overflow and
underflow, so the model agrees with IEEE-754 there).
-/

set_option maxRecDepth 100000

namespace ExchangeSpec

/-! ## The binary64 value model -/

/-- Number of binary digits of `n`, computed with explicit structural fuel so
that the kernel can evaluate it.  `bitlenAux f n` is correct whenever `n < 2 ^ f`;
all numerators and denominators in this development are far below `2 ^ 300`. -/
def bitlenAux : Nat → Nat → Nat
  | 0, _ => 0
  | f + 1, n => if n = 0 then 0 else bitlenAux f (n / 2) + 1

/-- Number of binary digits (`0` has zero digits). -/
def bitlen (n : Nat) : Nat := bitlenAux 300 n

/-- `⌊log₂ q⌋` for a positive rational `q`. -/
def floorLog2 (q : ℚ) : ℤ :=
  let e0 : ℤ := (bitlen q.num.toNat : ℤ) - (bitlen q.den : ℤ)
  if q < (2 : ℚ) ^ e0 then e0 - 1 else e0

/-- Round a positive rational to the nearest rational of the form
`m · 2 ^ e` with `m < 2 ^ 53` (ties to even): IEEE-754 binary64
round-to-nearest-even, for values in the normal range. -/
def roundPosF64 (q : ℚ) : ℚ :=
  let e := floorLog2 q
  let scaled := q * (2 : ℚ) ^ ((52 : ℤ) - e)
  let fl : ℤ := ⌊scaled⌋
  let r := scaled - (fl : ℚ)
  let m : ℤ :=
    if r < 1 / 2 then fl
    else if 1 / 2 < r then fl + 1
    else if fl % 2 = 0 then fl else fl + 1
  (m : ℚ) * (2 : ℚ) ^ (e - 52)

/-- IEEE-754 binary64 round-to-nearest-even on rational values
(normal range; overflow and subnormals do not occur in this development). -/
def f64TowardNearest (q : ℚ) : ℚ :=
  if q = 0 then 0 else if q < 0 then -(roundPosF64 (-q)) else roundPosF64 q

/-- Go `a - b` on `float64`: exact difference, correctly rounded. -/
def f64sub (a b : ℚ) : ℚ := f64TowardNearest (a - b)

/-- The value of the Go `float64` literal `0.1`. -/
def fl01 : ℚ := f64TowardNearest (1 / 10)

/-- The value of the Go `float64` literal `0.05`. -/
def fl005 : ℚ := f64TowardNearest (1 / 20)

/-- The value of the Go `float64` literal `0.3`. -/
def fl03 : ℚ := f64TowardNearest (3 / 10)

/-! ## Data model (`internal/models/models.go`) -/

/-- `models.Order`.  `otype` is the Go field `Type` (`"buy"` or `"sell"`),
`createdAt` embeds `time.Time` as an integer instant (`Before` becomes `<`). -/
structure Order where
  id : ℤ
  userId : ℤ
  otype : String
  price : ℚ
  quantity : ℚ
  status : String
  createdAt : ℤ
deriving DecidableEq

/-- `models.Trade` as built by the matching engine (part_002 lines 62-67 and
97-102): only these four fields are set there; `ID` and `ExecutedAt` are
assigned later by the database. -/
structure Trade where
  buyOrderId : ℤ
  sellOrderId : ℤ
  price : ℚ
  quantity : ℚ
deriving DecidableEq

/-- `exchange.Exchange` (part_002 lines 9-12). -/
structure Exchange where
  buyOrders : List Order
  sellOrders : List Order
deriving DecidableEq

/-- `exchange.NewExchange` (part_002 lines 15-20). -/
def NewExchange : Exchange := ⟨[], []⟩

/-- Go `min` on `float64` (part_002 lines 158-163). -/
def goMin (a b : ℚ) : ℚ := if a < b then a else b

/-! ## AddOrder (part_002 lines 23-43)

Go sorts with `sort.Slice` and a strict comparator; we model the sort with
`List.mergeSort` on the corresponding total preorder.  Any conforming sort
produces a permutation that is sorted with respect to the comparator, which
is the only property the specification claims. -/

/-- The total preorder corresponding to the buy-side comparator
(part_002 lines 27-32): highest price first, ties by earliest creation. -/
def buyLE (a b : Order) : Bool :=
  decide (b.price < a.price ∨ (a.price = b.price ∧ a.createdAt ≤ b.createdAt))

/-- The total preorder corresponding to the sell-side comparator
(part_002 lines 36-41): lowest price first, ties by earliest creation. -/
def sellLE (a b : Order) : Bool :=
  decide (a.price < b.price ∨ (a.price = b.price ∧ a.createdAt ≤ b.createdAt))

/-- `Exchange.AddOrder` (part_002 lines 23-43): append to the side selected
by `Type == "buy"`, then re-sort that side. -/
def AddOrder (e : Exchange) (o : Order) : Exchange :=
  if o.otype = "buy" then
    { e with buyOrders := (e.buyOrders ++ [o]).mergeSort buyLE }
  else
    { e with sellOrders := (e.sellOrders ++ [o]).mergeSort sellLE }

/-- A sequence of `AddOrder` calls starting from the empty exchange. -/
def applyOrders (os : List Order) : Exchange := os.foldl AddOrder NewExchange

/-- Bid-side book order: non-increasing price; for equal prices,
non-decreasing creation timestamp. -/
def bidPriority (a b : Order) : Prop :=
  b.price ≤ a.price ∧ (a.price = b.price → a.createdAt ≤ b.createdAt)

/-- Ask-side book order: non-decreasing price; for equal prices,
non-decreasing creation timestamp. -/
def askPriority (a b : Order) : Prop :=
  a.price ≤ b.price ∧ (a.price = b.price → a.createdAt ≤ b.createdAt)

/-! ## MatchOrder (part_002 lines 46-131) -/

/-- Result of one scan of the opposing side: the updated side, the incoming
order's remaining quantity, the generated trades, and the filled order ids. -/
structure ScanResult where
  book : List Order
  rem : ℚ
  trades : List Trade
  filled : List ℤ
deriving DecidableEq

/-- The buy-side loop of `MatchOrder` (part_002 lines 52-86): scan the sell
orders in book order with the incoming buy `n`, threading the incoming
remaining quantity `q`.  A resting order that is not `"open"` is skipped
(so is everything once `q ≤ 0`); a crossing resting order
(`restingPrice ≤ incomingPrice`) trades `min` of the remainders at the
resting price; both quantities are decremented (binary64 subtraction); an
exhausted participant is recorded in `filled` and the resting one is marked
`"filled"`; the loop stops once the incoming order is exhausted.  A
non-crossing resting order is left untouched and the scan moves on (the Go
loop has no early exit in that branch). -/
def scanSells (n : Order) : List Order → ℚ → ScanResult
  | [], q => ⟨[], q, [], []⟩
  | s :: rest, q =>
    if s.status ≠ "open" ∨ q ≤ 0 then
      let r := scanSells n rest q
      ⟨s :: r.book, r.rem, r.trades, r.filled⟩
    else if s.price ≤ n.price then
      let tq := goMin q s.quantity
      let t : Trade := ⟨n.id, s.id, s.price, tq⟩
      let q2 := f64sub q tq
      let sq2 := f64sub s.quantity tq
      let s2 : Order :=
        if sq2 ≤ 0 then { s with quantity := sq2, status := "filled" }
        else { s with quantity := sq2 }
      let f1 : List ℤ :=
        (if q2 ≤ 0 then [n.id] else []) ++ (if sq2 ≤ 0 then [s.id] else [])
      if q2 ≤ 0 then ⟨s2 :: rest, q2, [t], f1⟩
      else
        let r := scanSells n rest q2
        ⟨s2 :: r.book, r.rem, t :: r.trades, f1 ++ r.filled⟩
    else
      let r := scanSells n rest q
      ⟨s :: r.book, r.rem, r.trades, r.filled⟩

/-- The sell-side loop of `MatchOrder` (part_002 lines 89-119): symmetric to
`scanSells`; a resting buy crosses when `restingPrice ≥ incomingPrice`, and
the trade records the resting buy as the buy side. -/
def scanBuys (n : Order) : List Order → ℚ → ScanResult
  | [], q => ⟨[], q, [], []⟩
  | b :: rest, q =>
    if b.status ≠ "open" ∨ q ≤ 0 then
      let r := scanBuys n rest q
      ⟨b :: r.book, r.rem, r.trades, r.filled⟩
    else if n.price ≤ b.price then
      let tq := goMin q b.quantity
      let t : Trade := ⟨b.id, n.id, b.price, tq⟩
      let q2 := f64sub q tq
      let bq2 := f64sub b.quantity tq
      let b2 : Order :=
        if bq2 ≤ 0 then { b with quantity := bq2, status := "filled" }
        else { b with quantity := bq2 }
      let f1 : List ℤ :=
        (if q2 ≤ 0 then [n.id] else []) ++ (if bq2 ≤ 0 then [b.id] else [])
      if q2 ≤ 0 then ⟨b2 :: rest, q2, [t], f1⟩
      else
        let r := scanBuys n rest q2
        ⟨b2 :: r.book, r.rem, t :: r.trades, f1 ++ r.filled⟩
    else
      let r := scanBuys n rest q
      ⟨b :: r.book, r.rem, r.trades, r.filled⟩

/-- The incoming order's remaining quantity after the listed trades: its
initial quantity with each trade's quantity subtracted in order, by binary64
subtraction — exactly how `MatchOrder` threads `newOrder.Quantity` through
its loop (part_002 lines 71 and 105), since the loop decrements it once per
generated trade, by that trade's quantity.  `remainingAfter q (ts.take k)`
is therefore the incoming remaining quantity at the instant trade `k` of the
call is made. -/
def remainingAfter (q : ℚ) (ts : List Trade) : ℚ :=
  ts.foldl (fun a t => f64sub a t.quantity) q

/-- `Exchange.cleanupOrderBook` (part_002 lines 134-150): keep, on both
sides, exactly the orders that are `"open"` with positive quantity. -/
def cleanupOrderBook (e : Exchange) : Exchange :=
  { buyOrders := e.buyOrders.filter (fun o => o.status == "open" && decide (0 < o.quantity)),
    sellOrders := e.sellOrders.filter (fun o => o.status == "open" && decide (0 < o.quantity)) }

/-- `Exchange.MatchOrder` (part_002 lines 46-131): scan the opposing side,
remove filled orders from both sides (line 123), and re-insert the incoming
order when it still has positive remaining quantity and is still `"open"`
(lines 126-128; the shared tail of the Go function is inlined into both
branches of the `Type == "buy"` dispatch).  Returns the new book, the trades
and the filled order ids. -/
def MatchOrder (e : Exchange) (n : Order) : Exchange × List Trade × List ℤ :=
  if n.otype = "buy" then
    let r := scanSells n e.sellOrders n.quantity
    let e2 := cleanupOrderBook { e with sellOrders := r.book }
    let e3 :=
      if 0 < r.rem ∧ n.status = "open" then AddOrder e2 { n with quantity := r.rem } else e2
    (e3, r.trades, r.filled)
  else
    let r := scanBuys n e.buyOrders n.quantity
    let e2 := cleanupOrderBook { e with buyOrders := r.book }
    let e3 :=
      if 0 < r.rem ∧ n.status = "open" then AddOrder e2 { n with quantity := r.rem } else e2
    (e3, r.trades, r.filled)

/-! ## The `orders` table and `db.CancelOrder` (part_001 lines 159-198)

The `orders` relation is embedded as a list of `Order` rows (`id` is the
primary key, so well-formed tables have pairwise distinct ids — stated as a
hypothesis where needed).  `SELECT ... WHERE id = $1 AND user_id = $2`
becomes `List.find?`, and the `UPDATE ... WHERE` becomes a guarded `map`.
The enclosing transaction (begin / defer rollback / commit) means an error
leaves the table unchanged, so the model returns the resulting table
together with an optional error message: on error the returned table is the
input table. -/

/-- The row update performed by the `UPDATE orders SET status = 'canceled'
WHERE id = $1 AND user_id = $2 AND status = 'open'` statement
(part_001 lines 182-184), applied to one row. -/
def cancelUpd (oid uid : ℤ) (x : Order) : Order :=
  if x.id == oid && x.userId == uid && x.status == "open" then
    { x with status := "canceled" }
  else x

/-- `db.CancelOrder` (part_001 lines 159-198): select the row by id and
owner (conflating "not found" and "not owned" in one error, as the single
`WHERE id = $1 AND user_id = $2` query does), reject a non-`"open"` status,
otherwise flip the status to `"canceled"`; the `RowsAffected() == 0` branch
mirrors lines 189-191.  Errors roll the transaction back, returning the
table unchanged. -/
def CancelOrder (tbl : List Order) (oid uid : ℤ) : List Order × Option String :=
  match tbl.find? (fun r => r.id == oid && r.userId == uid) with
  | none => (tbl, some "order not found or not owned by user")
  | some r =>
    if r.status ≠ "open" then (tbl, some "order not open")
    else
      let updated := tbl.map (cancelUpd oid uid)
      if tbl.countP (fun x => x.id == oid && x.userId == uid && x.status == "open") = 0 then
        (tbl, some "order not found, not owned by user, or not open")
      else (updated, none)

/-! ## The persistence sequence of `PlaceOrder` (handlers.go lines 163-181)

After `MatchOrder` returns, the handler issues one `db.CreateTrade` call per
trade and then one `db.UpdateOrderStatus` call per filled order id, each a
separate auto-committed statement (part_001 lines 93-99 and 122-133; neither
opens a transaction), returning early on the first error.  Transient storage
failures are injected through `failAt`: the persistence calls are numbered
from zero and `failAt k = true` makes call `k` fail.  The final component
reports whether the whole sequence succeeded. -/

/-- State of the persisted store relevant to order submission. -/
structure DbState where
  orders : List Order
  trades : List Trade
deriving DecidableEq

/-- The `CreateTrade` loop (handlers.go lines 166-173): each successful call
inserts its trade; the first failing call aborts the loop, leaving every
previously inserted trade in place.  Returns the state, the next call
number, and whether the loop completed. -/
def persistTrades (failAt : ℕ → Bool) : ℕ → DbState → List Trade → DbState × ℕ × Bool
  | k, st, [] => (st, k, true)
  | k, st, t :: rest =>
    if failAt k then (st, k, false)
    else persistTrades failAt (k + 1) { st with trades := st.trades ++ [t] } rest

/-- The `UpdateOrderStatus` loop (handlers.go lines 176-181): each
successful call sets the status of every row with the given id to
`"filled"` (part_001 line 94); the first failing call aborts the loop. -/
def persistStatuses (failAt : ℕ → Bool) : ℕ → DbState → List ℤ → DbState × ℕ × Bool
  | k, st, [] => (st, k, true)
  | k, st, oid :: rest =>
    if failAt k then (st, k, false)
    else
      persistStatuses failAt (k + 1)
        { st with orders := st.orders.map (fun o => if o.id == oid then { o with status := "filled" } else o) }
        rest

/-- The whole post-match persistence sequence of `PlaceOrder`
(handlers.go lines 163-181): trades first, then status updates, aborting on
the first failure with everything already persisted left committed. -/
def persistAfterMatch (failAt : ℕ → Bool) (st : DbState) (ts : List Trade) (fs : List ℤ) :
    DbState × Bool :=
  match persistTrades failAt 0 st ts with
  | (st1, k, true) =>
    match persistStatuses failAt k st1 fs with
    | (st2, _, ok) => (st2, ok)
  | (st1, _, false) => (st1, false)

/-! ## Concrete instances used in the scenario claims -/

/-- Scenario A / B resting sell from `t1`: price 50000, quantity `0.1`. -/
def sA1 : Order := ⟨1, 100, "sell", 50000, fl01, "open", 1⟩

/-- Scenario A / B resting sell from `t2 > t1`: price 50000, quantity `0.05`. -/
def sA2 : Order := ⟨2, 101, "sell", 50000, fl005, "open", 2⟩

/-- Scenario A incoming buy: price 51000, quantity `0.1`. -/
def nA : Order := ⟨10, 102, "buy", 51000, fl01, "open", 3⟩

/-- Scenario A book: the two resting sells, `t1` first. -/
def exA : Exchange := ⟨[], [sA1, sA2]⟩

/-- Drift scenario resting sells: three open sells at 50000, quantity `0.1` each. -/
def sB (i : ℤ) : Order := ⟨i, 100, "sell", 50000, fl01, "open", i⟩

/-- Drift scenario incoming buy: price 50000, quantity `0.3`. -/
def nB : Order := ⟨10, 102, "buy", 50000, fl03, "open", 4⟩

/-- Drift scenario book. -/
def exB : Exchange := ⟨[], [sB 1, sB 2, sB 3]⟩

/-- Persistence scenario: the maker's and taker's rows as they stand in the
`orders` table right after `MatchOrder` returned (both still `"open"`). -/
def stC5 : DbState := ⟨[⟨1, 100, "sell", 50000, fl01, "open", 1⟩,
                       ⟨2, 102, "buy", 50000, fl01, "open", 2⟩], []⟩

/-- Persistence scenario: the single trade the match produced. -/
def tC5 : Trade := ⟨2, 1, 50000, fl01⟩

/-- A table with one open order, id 1, owned by user 2. -/
def tblC8 : List Order := [⟨1, 2, "buy", 100, 1, "open", 0⟩]

/-- A crossing resting sell (price 10) for the C7 witness. -/
def sC7a : Order := ⟨1, 100, "sell", 10, 1, "open", 1⟩

/-- A non-crossing resting sell (price 20) for the C7 witness. -/
def sC7b : Order := ⟨2, 100, "sell", 20, 1, "open", 2⟩

/-- Incoming buy at price 15 for the C7 witness. -/
def nC7 : Order := ⟨11, 102, "buy", 15, 1, "open", 3⟩

/-- Book for the C7 witness: asks sorted by price ascending. -/
def exC7 : Exchange := ⟨[], [sC7a, sC7b]⟩

/-! ## Basic lemmas -/

theorem goMin_le_left (a b : ℚ) : goMin a b ≤ a := by
  unfold goMin; split <;> linarith

theorem goMin_le_right (a b : ℚ) : goMin a b ≤ b := by
  unfold goMin
  split
  · linarith
  · exact le_rfl

theorem goMin_pos {a b : ℚ} (ha : 0 < a) (hb : 0 < b) : 0 < goMin a b := by
  unfold goMin; split <;> assumption

theorem buyLE_trans : ∀ a b c : Order, buyLE a b = true → buyLE b c = true →
    buyLE a c = true := by
  intro a b c hab hbc
  simp only [buyLE, decide_eq_true_eq] at hab hbc ⊢
  rcases hab with h | ⟨he, ht⟩ <;> rcases hbc with h2 | ⟨he2, ht2⟩
  · exact Or.inl (h2.trans h)
  · exact Or.inl (lt_of_le_of_lt (le_of_eq he2.symm) h)
  · exact Or.inl (lt_of_lt_of_le h2 (le_of_eq he.symm))
  · exact Or.inr ⟨he.trans he2, le_trans ht ht2⟩

theorem buyLE_total : ∀ a b : Order, (buyLE a b || buyLE b a) = true := by
  intro a b
  simp only [buyLE, Bool.or_eq_true, decide_eq_true_eq]
  rcases lt_trichotomy a.price b.price with h | h | h
  · exact Or.inr (Or.inl h)
  · rcases le_total a.createdAt b.createdAt with ht | ht
    · exact Or.inl (Or.inr ⟨h, ht⟩)
    · exact Or.inr (Or.inr ⟨h.symm, ht⟩)
  · exact Or.inl (Or.inl h)

theorem sellLE_trans : ∀ a b c : Order, sellLE a b = true → sellLE b c = true →
    sellLE a c = true := by
  intro a b c hab hbc
  simp only [sellLE, decide_eq_true_eq] at hab hbc ⊢
  rcases hab with h | ⟨he, ht⟩ <;> rcases hbc with h2 | ⟨he2, ht2⟩
  · exact Or.inl (h.trans h2)
  · exact Or.inl (lt_of_lt_of_le h (le_of_eq he2))
  · exact Or.inl (lt_of_le_of_lt (le_of_eq he) h2)
  · exact Or.inr ⟨he.trans he2, le_trans ht ht2⟩

theorem sellLE_total : ∀ a b : Order, (sellLE a b || sellLE b a) = true := by
  intro a b
  simp only [sellLE, Bool.or_eq_true, decide_eq_true_eq]
  rcases lt_trichotomy a.price b.price with h | h | h
  · exact Or.inl (Or.inl h)
  · rcases le_total a.createdAt b.createdAt with ht | ht
    · exact Or.inl (Or.inr ⟨h, ht⟩)
    · exact Or.inr (Or.inr ⟨h.symm, ht⟩)
  · exact Or.inr (Or.inl h)

theorem buyLE_imp {a b : Order} (h : buyLE a b = true) : bidPriority a b := by
  simp only [buyLE, decide_eq_true_eq] at h
  rcases h with h | ⟨he, ht⟩
  · exact ⟨le_of_lt h, fun heq => absurd h (by rw [heq]; exact lt_irrefl _)⟩
  · exact ⟨le_of_eq he.symm, fun _ => ht⟩

theorem sellLE_imp {a b : Order} (h : sellLE a b = true) : askPriority a b := by
  simp only [sellLE, decide_eq_true_eq] at h
  rcases h with h | ⟨he, ht⟩
  · exact ⟨le_of_lt h, fun heq => absurd h (by rw [heq]; exact lt_irrefl _)⟩
  · exact ⟨le_of_eq he, fun _ => ht⟩

theorem addOrder_preserves (e : Exchange) (o : Order)
    (hb : e.buyOrders.Pairwise bidPriority) (hs : e.sellOrders.Pairwise askPriority) :
    (AddOrder e o).buyOrders.Pairwise bidPriority ∧
    (AddOrder e o).sellOrders.Pairwise askPriority := by
  unfold AddOrder
  split
  · exact ⟨(List.sorted_mergeSort buyLE_trans buyLE_total
      (e.buyOrders ++ [o])).imp buyLE_imp, hs⟩
  · exact ⟨hb, (List.sorted_mergeSort sellLE_trans sellLE_total
      (e.sellOrders ++ [o])).imp sellLE_imp⟩

theorem foldl_addOrder_sorted (os : List Order) : ∀ e : Exchange,
    e.buyOrders.Pairwise bidPriority → e.sellOrders.Pairwise askPriority →
    (os.foldl AddOrder e).buyOrders.Pairwise bidPriority ∧
    (os.foldl AddOrder e).sellOrders.Pairwise askPriority := by
  induction os with
  | nil => exact fun e hb hs => ⟨hb, hs⟩
  | cons o rest ih =>
    intro e hb hs
    have h := addOrder_preserves e o hb hs
    exact ih (AddOrder e o) h.1 h.2

theorem mem_cleanup_buy {e : Exchange} {o : Order}
    (h : o ∈ (cleanupOrderBook e).buyOrders) : o.status = "open" ∧ 0 < o.quantity := by
  unfold cleanupOrderBook at h
  simp only [List.mem_filter, Bool.and_eq_true, beq_iff_eq, decide_eq_true_eq] at h
  exact h.2

theorem mem_cleanup_sell {e : Exchange} {o : Order}
    (h : o ∈ (cleanupOrderBook e).sellOrders) : o.status = "open" ∧ 0 < o.quantity := by
  unfold cleanupOrderBook at h
  simp only [List.mem_filter, Bool.and_eq_true, beq_iff_eq, decide_eq_true_eq] at h
  exact h.2

theorem mem_addOrder_buy {e : Exchange} {o x : Order}
    (h : x ∈ (AddOrder e o).buyOrders) : x ∈ e.buyOrders ∨ x = o := by
  unfold AddOrder at h
  split at h
  · simp only [List.mem_mergeSort, List.mem_append, List.mem_singleton] at h
    exact h
  · exact Or.inl h

theorem mem_addOrder_sell {e : Exchange} {o x : Order}
    (h : x ∈ (AddOrder e o).sellOrders) : x ∈ e.sellOrders ∨ x = o := by
  unfold AddOrder at h
  split at h
  · exact Or.inl h
  · simp only [List.mem_mergeSort, List.mem_append, List.mem_singleton] at h
    exact h

/-- Every trade the buy-side scan generates is against some resting sell `m`
of the scanned list that was `"open"` and whose price crosses the incoming
price, at `m`'s price, for quantity `min` of `m`'s remaining quantity and
the incoming remaining quantity `qi` at that instant (positive, because the
loop skips everything once the incoming order is exhausted). -/
theorem scanSells_trades_core (n : Order) (l : List Order) :
    ∀ (q : ℚ), ∀ t ∈ (scanSells n l q).trades,
      ∃ m ∈ l, ∃ qi : ℚ, 0 < qi ∧ m.status = "open" ∧ m.price ≤ n.price ∧
        t = ⟨n.id, m.id, m.price, goMin qi m.quantity⟩ := by
  induction l with
  | nil =>
    intro q t ht
    simp only [scanSells] at ht
    exact absurd ht (List.not_mem_nil t)
  | cons s rest ih =>
    intro q t ht
    simp only [scanSells] at ht
    by_cases h1 : s.status ≠ "open" ∨ q ≤ 0
    · rw [if_pos h1] at ht
      have ht2 : t ∈ (scanSells n rest q).trades := ht
      obtain ⟨m, hm, qi, hx⟩ := ih q t ht2
      exact ⟨m, List.mem_cons_of_mem s hm, qi, hx⟩
    · rw [if_neg h1] at ht
      push_neg at h1
      obtain ⟨hopen, hqpos⟩ := h1
      by_cases h2 : s.price ≤ n.price
      · rw [if_pos h2] at ht
        by_cases h3 : f64sub q (goMin q s.quantity) ≤ 0
        · rw [if_pos h3] at ht
          have ht2 : t ∈ [(⟨n.id, s.id, s.price, goMin q s.quantity⟩ : Trade)] := ht
          rw [List.mem_singleton] at ht2
          exact ⟨s, List.mem_cons_self s rest, q, hqpos, hopen, h2, ht2⟩
        · rw [if_neg h3] at ht
          have ht2 : t ∈ (⟨n.id, s.id, s.price, goMin q s.quantity⟩ : Trade) ::
              (scanSells n rest (f64sub q (goMin q s.quantity))).trades := ht
          rcases List.mem_cons.mp ht2 with h | h
          · exact ⟨s, List.mem_cons_self s rest, q, hqpos, hopen, h2, h⟩
          · obtain ⟨m, hm, qi, hx⟩ := ih _ t h
            exact ⟨m, List.mem_cons_of_mem s hm, qi, hx⟩
      · rw [if_neg h2] at ht
        have ht2 : t ∈ (scanSells n rest q).trades := ht
        obtain ⟨m, hm, qi, hx⟩ := ih q t ht2
        exact ⟨m, List.mem_cons_of_mem s hm, qi, hx⟩

/-- Symmetric trade-shape lemma for the sell-side scan over resting buys. -/
theorem scanBuys_trades_core (n : Order) (l : List Order) :
    ∀ (q : ℚ), ∀ t ∈ (scanBuys n l q).trades,
      ∃ m ∈ l, ∃ qi : ℚ, 0 < qi ∧ m.status = "open" ∧ n.price ≤ m.price ∧
        t = ⟨m.id, n.id, m.price, goMin qi m.quantity⟩ := by
  induction l with
  | nil =>
    intro q t ht
    simp only [scanBuys] at ht
    exact absurd ht (List.not_mem_nil t)
  | cons b rest ih =>
    intro q t ht
    simp only [scanBuys] at ht
    by_cases h1 : b.status ≠ "open" ∨ q ≤ 0
    · rw [if_pos h1] at ht
      have ht2 : t ∈ (scanBuys n rest q).trades := ht
      obtain ⟨m, hm, qi, hx⟩ := ih q t ht2
      exact ⟨m, List.mem_cons_of_mem b hm, qi, hx⟩
    · rw [if_neg h1] at ht
      push_neg at h1
      obtain ⟨hopen, hqpos⟩ := h1
      by_cases h2 : n.price ≤ b.price
      · rw [if_pos h2] at ht
        by_cases h3 : f64sub q (goMin q b.quantity) ≤ 0
        · rw [if_pos h3] at ht
          have ht2 : t ∈ [(⟨b.id, n.id, b.price, goMin q b.quantity⟩ : Trade)] := ht
          rw [List.mem_singleton] at ht2
          exact ⟨b, List.mem_cons_self b rest, q, hqpos, hopen, h2, ht2⟩
        · rw [if_neg h3] at ht
          have ht2 : t ∈ (⟨b.id, n.id, b.price, goMin q b.quantity⟩ : Trade) ::
              (scanBuys n rest (f64sub q (goMin q b.quantity))).trades := ht
          rcases List.mem_cons.mp ht2 with h | h
          · exact ⟨b, List.mem_cons_self b rest, q, hqpos, hopen, h2, h⟩
          · obtain ⟨m, hm, qi, hx⟩ := ih _ t h
            exact ⟨m, List.mem_cons_of_mem b hm, qi, hx⟩
      · rw [if_neg h2] at ht
        have ht2 : t ∈ (scanBuys n rest q).trades := ht
        obtain ⟨m, hm, qi, hx⟩ := ih q t ht2
        exact ⟨m, List.mem_cons_of_mem b hm, qi, hx⟩

/-- Position-indexed strengthening of `scanSells_trades_core`: trade `k` of
the buy-side scan is against an open, crossing resting sell `m` of the
scanned list, at `m`'s price, for quantity `min` of `m`'s remaining quantity
and the incoming remaining quantity *at that instant* — the initial incoming
quantity with the quantities of trades `0..k-1` already subtracted
(`remainingAfter`), which is positive since the loop skips everything once
the incoming order is exhausted. -/
theorem scanSells_trades_indexed (n : Order) (l : List Order) :
    ∀ (q : ℚ) (k : ℕ) (t : Trade), (scanSells n l q).trades.get? k = some t →
      ∃ m ∈ l, 0 < remainingAfter q ((scanSells n l q).trades.take k) ∧
        m.status = "open" ∧ m.price ≤ n.price ∧
        t = ⟨n.id, m.id, m.price,
          goMin (remainingAfter q ((scanSells n l q).trades.take k)) m.quantity⟩ := by
  induction l with
  | nil =>
    intro q k t ht
    simp [scanSells] at ht
  | cons s rest ih =>
    intro q k t ht
    simp only [scanSells] at ht ⊢
    by_cases h1 : s.status ≠ "open" ∨ q ≤ 0
    · rw [if_pos h1] at ht ⊢
      have ht2 : (scanSells n rest q).trades.get? k = some t := ht
      obtain ⟨m, hm, hqi, hopen, hple, hteq⟩ := ih q k t ht2
      exact ⟨m, List.mem_cons_of_mem s hm, hqi, hopen, hple, hteq⟩
    · rw [if_neg h1] at ht ⊢
      push_neg at h1
      obtain ⟨hopen, hqpos⟩ := h1
      by_cases h2 : s.price ≤ n.price
      · rw [if_pos h2] at ht ⊢
        by_cases h3 : f64sub q (goMin q s.quantity) ≤ 0
        · rw [if_pos h3] at ht ⊢
          match k with
          | 0 =>
            have ht2 : some (⟨n.id, s.id, s.price, goMin q s.quantity⟩ : Trade) = some t := ht
            exact ⟨s, List.mem_cons_self s rest, hqpos, hopen, h2,
              (Option.some.injEq _ _ ▸ ht2).symm⟩
          | k + 1 =>
            have ht2 : ([] : List Trade).get? k = some t := ht
            simp at ht2
        · rw [if_neg h3] at ht ⊢
          match k with
          | 0 =>
            have ht2 : some (⟨n.id, s.id, s.price, goMin q s.quantity⟩ : Trade) = some t := ht
            exact ⟨s, List.mem_cons_self s rest, hqpos, hopen, h2,
              (Option.some.injEq _ _ ▸ ht2).symm⟩
          | k + 1 =>
            have ht2 : (scanSells n rest (f64sub q (goMin q s.quantity))).trades.get? k = some t := ht
            obtain ⟨m, hm, hqi, hopen2, hple, hteq⟩ := ih (f64sub q (goMin q s.quantity)) k t ht2
            exact ⟨m, List.mem_cons_of_mem s hm, hqi, hopen2, hple, hteq⟩
      · rw [if_neg h2] at ht ⊢
        have ht2 : (scanSells n rest q).trades.get? k = some t := ht
        obtain ⟨m, hm, hqi, hopen2, hple, hteq⟩ := ih q k t ht2
        exact ⟨m, List.mem_cons_of_mem s hm, hqi, hopen2, hple, hteq⟩

/-- Position-indexed trade-shape lemma for the sell-side scan, symmetric to
`scanSells_trades_indexed`. -/
theorem scanBuys_trades_indexed (n : Order) (l : List Order) :
    ∀ (q : ℚ) (k : ℕ) (t : Trade), (scanBuys n l q).trades.get? k = some t →
      ∃ m ∈ l, 0 < remainingAfter q ((scanBuys n l q).trades.take k) ∧
        m.status = "open" ∧ n.price ≤ m.price ∧
        t = ⟨m.id, n.id, m.price,
          goMin (remainingAfter q ((scanBuys n l q).trades.take k)) m.quantity⟩ := by
  induction l with
  | nil =>
    intro q k t ht
    simp [scanBuys] at ht
  | cons b rest ih =>
    intro q k t ht
    simp only [scanBuys] at ht ⊢
    by_cases h1 : b.status ≠ "open" ∨ q ≤ 0
    · rw [if_pos h1] at ht ⊢
      have ht2 : (scanBuys n rest q).trades.get? k = some t := ht
      obtain ⟨m, hm, hqi, hopen, hple, hteq⟩ := ih q k t ht2
      exact ⟨m, List.mem_cons_of_mem b hm, hqi, hopen, hple, hteq⟩
    · rw [if_neg h1] at ht ⊢
      push_neg at h1
      obtain ⟨hopen, hqpos⟩ := h1
      by_cases h2 : n.price ≤ b.price
      · rw [if_pos h2] at ht ⊢
        by_cases h3 : f64sub q (goMin q b.quantity) ≤ 0
        · rw [if_pos h3] at ht ⊢
          match k with
          | 0 =>
            have ht2 : some (⟨b.id, n.id, b.price, goMin q b.quantity⟩ : Trade) = some t := ht
            exact ⟨b, List.mem_cons_self b rest, hqpos, hopen, h2,
              (Option.some.injEq _ _ ▸ ht2).symm⟩
          | k + 1 =>
            have ht2 : ([] : List Trade).get? k = some t := ht
            simp at ht2
        · rw [if_neg h3] at ht ⊢
          match k with
          | 0 =>
            have ht2 : some (⟨b.id, n.id, b.price, goMin q b.quantity⟩ : Trade) = some t := ht
            exact ⟨b, List.mem_cons_self b rest, hqpos, hopen, h2,
              (Option.some.injEq _ _ ▸ ht2).symm⟩
          | k + 1 =>
            have ht2 : (scanBuys n rest (f64sub q (goMin q b.quantity))).trades.get? k = some t := ht
            obtain ⟨m, hm, hqi, hopen2, hple, hteq⟩ := ih (f64sub q (goMin q b.quantity)) k t ht2
            exact ⟨m, List.mem_cons_of_mem b hm, hqi, hopen2, hple, hteq⟩
      · rw [if_neg h2] at ht ⊢
        have ht2 : (scanBuys n rest q).trades.get? k = some t := ht
        obtain ⟨m, hm, hqi, hopen2, hple, hteq⟩ := ih q k t ht2
        exact ⟨m, List.mem_cons_of_mem b hm, hqi, hopen2, hple, hteq⟩

/-- The trades `MatchOrder` returns are exactly the trades of the scan of
the opposing side. -/
theorem matchOrder_trades_buy {e : Exchange} {n : Order} (hbuy : n.otype = "buy") :
    (MatchOrder e n).2.1 = (scanSells n e.sellOrders n.quantity).trades := by
  simp only [MatchOrder, if_pos hbuy]

/-- Sell-side counterpart of `matchOrder_trades_buy`. -/
theorem matchOrder_trades_sell {e : Exchange} {n : Order} (hbuy : ¬ n.otype = "buy") :
    (MatchOrder e n).2.1 = (scanBuys n e.buyOrders n.quantity).trades := by
  simp only [MatchOrder, if_neg hbuy]

theorem cancelUpd_id (oid uid : ℤ) (x : Order) : (cancelUpd oid uid x).id = x.id := by
  unfold cancelUpd; split <;> rfl

/-- Success of the modelled `db.CancelOrder` is equivalent to the existence
of an open row with the requested id and owner (`id` being a primary key). -/
theorem cancelOrder_ok_iff (tbl : List Order) (oid uid : ℤ)
    (hnd : (tbl.map Order.id).Nodup) :
    (CancelOrder tbl oid uid).2 = none ↔
      ∃ r ∈ tbl, r.id = oid ∧ r.userId = uid ∧ r.status = "open" := by
  unfold CancelOrder
  cases hf : tbl.find? (fun r => r.id == oid && r.userId == uid) with
  | none =>
    constructor
    · intro h; exact absurd h (by simp)
    · rintro ⟨r, hr, hid, huid, -⟩
      have hno := List.find?_eq_none.mp hf r hr
      simp [hid, huid] at hno
  | some r =>
    dsimp only
    have hpred := List.find?_some hf
    have hrmem := List.mem_of_find?_eq_some hf
    simp only [Bool.and_eq_true, beq_iff_eq] at hpred
    obtain ⟨hid, huid⟩ := hpred
    by_cases hst : r.status ≠ "open"
    · rw [if_pos hst]
      constructor
      · intro h; exact absurd h (by simp)
      · rintro ⟨r2, hr2, hid2, huid2, hopen2⟩
        have hr2r : r2 = r := List.inj_on_of_nodup_map hnd hr2 hrmem (by rw [hid2, hid])
        rw [hr2r] at hopen2
        exact absurd hopen2 hst
    · rw [if_neg hst]
      push_neg at hst
      have hcnt :
          ¬ tbl.countP (fun x => x.id == oid && x.userId == uid && x.status == "open") = 0 := by
        intro h0
        have hall := List.countP_eq_zero.mp h0 r hrmem
        simp [hid, huid, hst] at hall
      rw [if_neg hcnt]
      exact ⟨fun _ => ⟨r, hrmem, hid, huid, hst⟩, fun _ => rfl⟩

/-- The modelled `db.CancelOrder` either succeeds, returning the updated
table, or fails, returning the input table (transaction rollback). -/
theorem cancelOrder_shape (tbl : List Order) (oid uid : ℤ) :
    CancelOrder tbl oid uid = (tbl.map (cancelUpd oid uid), none) ∨
    ((CancelOrder tbl oid uid).1 = tbl ∧ (CancelOrder tbl oid uid).2 ≠ none) := by
  unfold CancelOrder
  cases tbl.find? (fun r => r.id == oid && r.userId == uid) with
  | none => exact Or.inr ⟨rfl, by simp⟩
  | some r =>
    dsimp only
    split
    · exact Or.inr ⟨rfl, by simp⟩
    · split
      · exact Or.inr ⟨rfl, by simp⟩
      · exact Or.inl rfl

theorem cancelOrder_ok_table {tbl : List Order} {oid uid : ℤ}
    (h : (CancelOrder tbl oid uid).2 = none) :
    (CancelOrder tbl oid uid).1 = tbl.map (cancelUpd oid uid) := by
  rcases cancelOrder_shape tbl oid uid with hs | hs
  · rw [hs]
  · exact absurd h hs.2

theorem cancelOrder_fail_table {tbl : List Order} {oid uid : ℤ}
    (h : ¬ (CancelOrder tbl oid uid).2 = none) :
    (CancelOrder tbl oid uid).1 = tbl := by
  rcases cancelOrder_shape tbl oid uid with hs | hs
  · rw [hs] at h; exact absurd rfl h
  · exact hs.1

/-- After a successful cancel, the row with the cancelled id reads
`"canceled"`. -/
theorem cancelOrder_ok_status (tbl : List Order) (oid uid : ℤ)
    (hnd : (tbl.map Order.id).Nodup) (h : (CancelOrder tbl oid uid).2 = none) :
    ∀ x ∈ (CancelOrder tbl oid uid).1, x.id = oid → x.status = "canceled" := by
  rw [cancelOrder_ok_table h]
  intro x hx hxid
  obtain ⟨y, hy, rfl⟩ := List.mem_map.mp hx
  have hyid : y.id = oid := by rw [← cancelUpd_id oid uid y]; exact hxid
  obtain ⟨r, hr, hrid, hruid, hropen⟩ := (cancelOrder_ok_iff tbl oid uid hnd).mp h
  have hyr : y = r := List.inj_on_of_nodup_map hnd hy hr (by rw [hyid, hrid])
  subst hyr
  unfold cancelUpd
  rw [if_pos (by simp [hrid, hruid, hropen])]

/-! ## Claim theorems -/

/-- Claim C10: after every `MatchOrder` call, regardless of the book's prior
contents, every order remaining on either side of the book has status
`"open"` and strictly positive quantity: `cleanupOrderBook` removes every
other entry from both sides, and the incoming order is only re-inserted when
its remaining quantity is positive and its status is still `"open"`. -/
theorem matchOrder_book_invariant (e : Exchange) (n : Order) :
    (∀ o ∈ (MatchOrder e n).1.buyOrders, o.status = "open" ∧ 0 < o.quantity) ∧
    (∀ o ∈ (MatchOrder e n).1.sellOrders, o.status = "open" ∧ 0 < o.quantity) := by
  by_cases hbuy : n.otype = "buy" <;>
    [simp only [MatchOrder, if_pos hbuy]; simp only [MatchOrder, if_neg hbuy]] <;>
  · constructor <;> intro o ho <;>
      [skip; skip] <;>
    first
    | (split at ho
       · rcases mem_addOrder_buy ho with h | h
         · exact mem_cleanup_buy h
         · rename_i hcond
           subst h
           exact ⟨hcond.2, hcond.1⟩
       · exact mem_cleanup_buy ho)
    | (split at ho
       · rcases mem_addOrder_sell ho with h | h
         · exact mem_cleanup_sell h
         · rename_i hcond
           subst h
           exact ⟨hcond.2, hcond.1⟩
       · exact mem_cleanup_sell ho)

/-- Claim C1: under the data-model invariant that every open resting order
has positive remaining quantity, every trade a `MatchOrder` call returns —
trade `k` of the returned list — is priced at the resting (maker) order's
limit price, and its quantity is `min(incoming remaining, resting remaining)`
at the instant of the match: the incoming remaining is
`remainingAfter n.quantity` of the earlier trades of the same call (the
engine's own threading of `newOrder.Quantity`), and the maker's remaining is
its book quantity, since the scan visits each resting order once.  The
quantity is therefore strictly positive and never exceeds either
participant's remaining quantity, and the trade records the incoming order
and the maker as the correct buy/sell parties. -/
theorem matchOrder_trade_contract (e : Exchange) (n : Order)
    (hb : ∀ o ∈ e.buyOrders, o.status = "open" → 0 < o.quantity)
    (hs : ∀ o ∈ e.sellOrders, o.status = "open" → 0 < o.quantity) :
    ∀ (k : ℕ) (t : Trade), (MatchOrder e n).2.1.get? k = some t →
      ∃ m, m.status = "open" ∧ 0 < m.quantity ∧
        0 < remainingAfter n.quantity ((MatchOrder e n).2.1.take k) ∧
        t.price = m.price ∧
        t.quantity = goMin (remainingAfter n.quantity ((MatchOrder e n).2.1.take k)) m.quantity ∧
        0 < t.quantity ∧
        t.quantity ≤ remainingAfter n.quantity ((MatchOrder e n).2.1.take k) ∧
        t.quantity ≤ m.quantity ∧
        ((n.otype = "buy" ∧ m ∈ e.sellOrders ∧ t.buyOrderId = n.id ∧ t.sellOrderId = m.id) ∨
         (n.otype ≠ "buy" ∧ m ∈ e.buyOrders ∧ t.buyOrderId = m.id ∧ t.sellOrderId = n.id)) := by
  intro k t ht
  by_cases hbuy : n.otype = "buy"
  · rw [matchOrder_trades_buy hbuy] at ht ⊢
    obtain ⟨m, hm, hqi, hopen, hple, hteq⟩ :=
      scanSells_trades_indexed n e.sellOrders n.quantity k t ht
    have hmq : 0 < m.quantity := hs m hm hopen
    subst hteq
    exact ⟨m, hopen, hmq, hqi, rfl, rfl, goMin_pos hqi hmq,
      goMin_le_left _ m.quantity, goMin_le_right _ m.quantity,
      Or.inl ⟨hbuy, hm, rfl, rfl⟩⟩
  · rw [matchOrder_trades_sell hbuy] at ht ⊢
    obtain ⟨m, hm, hqi, hopen, hple, hteq⟩ :=
      scanBuys_trades_indexed n e.buyOrders n.quantity k t ht
    have hmq : 0 < m.quantity := hb m hm hopen
    subst hteq
    exact ⟨m, hopen, hmq, hqi, rfl, rfl, goMin_pos hqi hmq,
      goMin_le_left _ m.quantity, goMin_le_right _ m.quantity,
      Or.inr ⟨hbuy, hm, rfl, rfl⟩⟩

/-- Witness for the C1 theorem, at the Scenario A inputs and trade index 0. -/
theorem matchOrder_trade_contract_witness :
    ∃ m, m.status = "open" ∧ 0 < m.quantity ∧
      0 < remainingAfter nA.quantity ((MatchOrder exA nA).2.1.take 0) ∧
      (⟨10, 1, 50000, fl01⟩ : Trade).price = m.price ∧
      (⟨10, 1, 50000, fl01⟩ : Trade).quantity =
        goMin (remainingAfter nA.quantity ((MatchOrder exA nA).2.1.take 0)) m.quantity ∧
      0 < (⟨10, 1, 50000, fl01⟩ : Trade).quantity ∧
      (⟨10, 1, 50000, fl01⟩ : Trade).quantity ≤
        remainingAfter nA.quantity ((MatchOrder exA nA).2.1.take 0) ∧
      (⟨10, 1, 50000, fl01⟩ : Trade).quantity ≤ m.quantity ∧
      ((nA.otype = "buy" ∧ m ∈ exA.sellOrders ∧
          (⟨10, 1, 50000, fl01⟩ : Trade).buyOrderId = nA.id ∧
          (⟨10, 1, 50000, fl01⟩ : Trade).sellOrderId = m.id) ∨
       (nA.otype ≠ "buy" ∧ m ∈ exA.buyOrders ∧
          (⟨10, 1, 50000, fl01⟩ : Trade).buyOrderId = m.id ∧
          (⟨10, 1, 50000, fl01⟩ : Trade).sellOrderId = nA.id)) :=
  matchOrder_trade_contract exA nA
    (of_decide_eq_true (by with_unfolding_all rfl))
    (of_decide_eq_true (by with_unfolding_all rfl))
    0 ⟨10, 1, 50000, fl01⟩
    (by with_unfolding_all rfl)

/-- Claim C2: after any sequence of `AddOrder` calls on an empty exchange,
the bid side is non-increasing by price with ties non-decreasing by creation
timestamp, and the ask side is non-decreasing by price with ties
non-decreasing by creation timestamp.  (`sort.Slice` is modelled by
`mergeSort` on the comparator's total preorder; the sorted-output property
proved here is comparator-determined and holds for any conforming sort.) -/
theorem addOrder_priority_order (os : List Order) :
    (applyOrders os).buyOrders.Pairwise bidPriority ∧
    (applyOrders os).sellOrders.Pairwise askPriority :=
  foldl_addOrder_sorted os NewExchange List.Pairwise.nil List.Pairwise.nil

/-- Claim C7: on a book sorted per the Order Book contract, once a resting
order `r` of the opposing side does not cross the incoming order's price, no
trade of that `MatchOrder` call is against `r` or any later entry of that
side (the side's ids being pairwise distinct, as database-assigned primary
keys are).  The Go loop keeps iterating instead of breaking, but every trade
it generates is against a crossing maker, and price-sortedness makes every
entry from `r` on non-crossing. -/
theorem matchOrder_noncrossing_terminates (e : Exchange) (n : Order) :
    (∀ l1 r l2, n.otype = "buy" →
      e.sellOrders = l1 ++ r :: l2 →
      e.sellOrders.Pairwise (fun a b => a.price ≤ b.price) →
      ¬ r.price ≤ n.price →
      (e.sellOrders.map Order.id).Nodup →
      ∀ t ∈ (MatchOrder e n).2.1, ∀ o ∈ r :: l2, t.sellOrderId ≠ o.id) ∧
    (∀ l1 r l2, n.otype ≠ "buy" →
      e.buyOrders = l1 ++ r :: l2 →
      e.buyOrders.Pairwise (fun a b => b.price ≤ a.price) →
      ¬ n.price ≤ r.price →
      (e.buyOrders.map Order.id).Nodup →
      ∀ t ∈ (MatchOrder e n).2.1, ∀ o ∈ r :: l2, t.buyOrderId ≠ o.id) := by
  constructor
  · intro l1 r l2 hbuy hsplit hsorted hnc hnd t ht o ho heq
    rw [matchOrder_trades_buy hbuy] at ht
    obtain ⟨m, hm, qi, hqi, hopen, hple, hteq⟩ :=
      scanSells_trades_core n e.sellOrders n.quantity t ht
    have hid : t.sellOrderId = m.id := by rw [hteq]
    have hosells : o ∈ e.sellOrders := by
      rw [hsplit]; exact List.mem_append_right l1 ho
    have hmo : m = o := List.inj_on_of_nodup_map hnd hm hosells (by rw [← hid, heq])
    have hsub : (r :: l2).Pairwise (fun a b : Order => a.price ≤ b.price) := by
      rw [hsplit] at hsorted
      exact hsorted.sublist (List.sublist_append_right l1 (r :: l2))
    have hro : r.price ≤ o.price := by
      rcases List.mem_cons.mp ho with h | h
      · rw [h]
      · exact List.rel_of_pairwise_cons hsub h
    have hnr : n.price < r.price := not_le.mp hnc
    rw [hmo] at hple
    exact absurd hple (not_le.mpr (lt_of_lt_of_le hnr hro))
  · intro l1 r l2 hbuy hsplit hsorted hnc hnd t ht o ho heq
    rw [matchOrder_trades_sell hbuy] at ht
    obtain ⟨m, hm, qi, hqi, hopen, hple, hteq⟩ :=
      scanBuys_trades_core n e.buyOrders n.quantity t ht
    have hid : t.buyOrderId = m.id := by rw [hteq]
    have hobuys : o ∈ e.buyOrders := by
      rw [hsplit]; exact List.mem_append_right l1 ho
    have hmo : m = o := List.inj_on_of_nodup_map hnd hm hobuys (by rw [← hid, heq])
    have hsub : (r :: l2).Pairwise (fun a b : Order => b.price ≤ a.price) := by
      rw [hsplit] at hsorted
      exact hsorted.sublist (List.sublist_append_right l1 (r :: l2))
    have hro : o.price ≤ r.price := by
      rcases List.mem_cons.mp ho with h | h
      · rw [h]
      · exact List.rel_of_pairwise_cons hsub h
    have hnr : r.price < n.price := not_le.mp hnc
    rw [hmo] at hple
    exact absurd hple (not_le.mpr (lt_of_le_of_lt hro hnr))

/-- Witness for the C7 theorem: incoming buy at 15 against asks at 10 and
20; the trade against the ask at 10 is not against the non-crossing ask at
20. -/
theorem matchOrder_noncrossing_terminates_witness :
    (⟨11, 1, 10, 1⟩ : Trade).sellOrderId ≠ sC7b.id :=
  (matchOrder_noncrossing_terminates exC7 nC7).1 [sC7a] sC7b [] rfl rfl
    (of_decide_eq_true (by with_unfolding_all rfl))
    (of_decide_eq_true (by with_unfolding_all rfl))
    (of_decide_eq_true (by with_unfolding_all rfl))
    ⟨11, 1, 10, 1⟩
    (by with_unfolding_all exact List.mem_singleton_self _)
    sC7b (List.mem_singleton_self sC7b)

/-- Claim C3 (Scenario A, time priority): with the book holding the two open
resting sells at price 50000 — quantity `0.1` created at `t1 = 1` and
quantity `0.05` created at `t2 = 2` — an incoming open buy at price 51000,
quantity `0.1`, produces exactly one trade, of quantity `0.1` at price 50000,
between the incoming buy (id 10) and the `t1` sell (id 1); both ids are
reported filled, the `t1` sell is removed from the book, and the `t2` sell
remains in the book open and unchanged. -/
theorem matchOrder_scenarioA :
    MatchOrder exA nA = (⟨[], [sA2]⟩, [⟨10, 1, 50000, fl01⟩], [10, 1]) ∧
    sA2.status = "open" ∧ 0 < sA2.quantity := by
  refine ⟨by with_unfolding_all rfl, by with_unfolding_all rfl, ?_⟩
  exact of_decide_eq_true (by with_unfolding_all rfl)

/-- Claim C6 (exact decimal arithmetic): refuted by evaluation.  The engine
stores quantities as binary64, for which the decimal identity
`0.1 + 0.1 + 0.1 = 0.3` fails.  An incoming open buy of quantity `0.3`
against three resting open sells of quantity `0.1` each (all at price 50000)
is reported fully filled after its third trade has quantity
`0.09999999999999998` (not `0.1`), and the third sell is left in the book,
open, with remaining quantity `2 ^ (-55) ≈ 2.8e-17` instead of being
filled and removed — drift under repeated subtraction. -/
theorem matchOrder_float_drift :
    MatchOrder exB nB =
      (⟨[], [⟨3, 100, "sell", 50000, 1 / 2 ^ 55, "open", 3⟩]⟩,
       [⟨10, 1, 50000, fl01⟩, ⟨10, 2, 50000, fl01⟩,
        ⟨10, 3, 50000, 900719925474099 / 2 ^ 53⟩],
       [1, 2, 10]) ∧
    fl01 + fl01 + fl01 ≠ fl03 ∧ (900719925474099 : ℚ) / 2 ^ 53 ≠ fl01 := by
  refine ⟨by with_unfolding_all rfl, ?_, ?_⟩ <;>
    exact of_decide_eq_true (by with_unfolding_all rfl)

/-- Claim C5 (atomic persistence of a match): refuted by evaluation.  The
handler persists the trade and the two status updates as three separate
auto-committed calls; if the first status update fails, the submission is
aborted with the trade already committed while both participating orders
still read `"open"` — exactly the half-applied state the claim rules out. -/
theorem placeOrder_partial_persistence :
    persistAfterMatch (fun k => k == 1) stC5 [tC5] [2, 1] =
      (⟨stC5.orders, [tC5]⟩, false) ∧
    (persistAfterMatch (fun k => k == 1) stC5 [tC5] [2, 1]).1.trades = [tC5] ∧
    ∀ o ∈ (persistAfterMatch (fun k => k == 1) stC5 [tC5] [2, 1]).1.orders,
      o.status = "open" := by
  refine ⟨by with_unfolding_all rfl, by with_unfolding_all rfl, ?_⟩
  exact of_decide_eq_true (by with_unfolding_all rfl)

/-- Claim C4: `CancelOrder(orderID, userID)` succeeds if and only if an
order with that id exists, belongs to that user, and is currently `"open"`;
on success that order's status becomes `"canceled"` (and every other row is
untouched); on any failure the table is returned unchanged (the transaction
rolls back); and after a success, a second cancel of the same order — by any
requester — always fails. -/
theorem cancelOrder_atomic_contract (tbl : List Order) (oid uid : ℤ)
    (hnd : (tbl.map Order.id).Nodup) :
    ((CancelOrder tbl oid uid).2 = none ↔
      ∃ r ∈ tbl, r.id = oid ∧ r.userId = uid ∧ r.status = "open") ∧
    ((CancelOrder tbl oid uid).2 = none →
      (∀ x ∈ (CancelOrder tbl oid uid).1, x.id = oid → x.status = "canceled") ∧
      (∀ x ∈ (CancelOrder tbl oid uid).1, x.id ≠ oid → x ∈ tbl)) ∧
    (¬ (CancelOrder tbl oid uid).2 = none → (CancelOrder tbl oid uid).1 = tbl) ∧
    ((CancelOrder tbl oid uid).2 = none →
      ∀ uid2, ¬ (CancelOrder (CancelOrder tbl oid uid).1 oid uid2).2 = none) := by
  refine ⟨cancelOrder_ok_iff tbl oid uid hnd, fun h => ⟨cancelOrder_ok_status tbl oid uid hnd h, ?_⟩,
    fun h => cancelOrder_fail_table h, fun h uid2 h2 => ?_⟩
  · rw [cancelOrder_ok_table h]
    intro x hx hxid
    obtain ⟨y, hy, rfl⟩ := List.mem_map.mp hx
    have hyid : y.id ≠ oid := by rw [← cancelUpd_id oid uid y]; exact hxid
    unfold cancelUpd
    rw [if_neg (by simp [hyid])]
    exact hy
  · have hnd2 : ((CancelOrder tbl oid uid).1.map Order.id).Nodup := by
      rw [cancelOrder_ok_table h, List.map_map]
      have hcomp : Order.id ∘ cancelUpd oid uid = Order.id :=
        funext fun x => cancelUpd_id oid uid x
      rw [hcomp]; exact hnd
    obtain ⟨r2, hr2, hid2, huid2, hopen2⟩ :=
      (cancelOrder_ok_iff (CancelOrder tbl oid uid).1 oid uid2 hnd2).mp h2
    have hcanc := cancelOrder_ok_status tbl oid uid hnd h r2 hr2 hid2
    rw [hopen2] at hcanc
    simp at hcanc

/-- Witness for the C4 theorem: cancelling order 1 of `tblC8` as its owner,
user 2, succeeds, per the success-iff component. -/
theorem cancelOrder_atomic_contract_witness :
    (CancelOrder tblC8 1 2).2 = none ↔
      ∃ r ∈ tblC8, r.id = 1 ∧ r.userId = 2 ∧ r.status = "open" :=
  (cancelOrder_atomic_contract tblC8 1 2
    (of_decide_eq_true (by with_unfolding_all rfl))).1

/-- Claim C8, amended: a failed cancellation returns one of exactly two
error kinds, not three — a combined not-found-or-not-owner error (the single
`WHERE id AND user_id` lookup cannot tell the two causes apart) and a
not-open error for orders already filled or canceled. -/
theorem cancelOrder_error_kinds (tbl : List Order) (oid uid : ℤ)
    (hnd : (tbl.map Order.id).Nodup) :
    ((CancelOrder tbl oid uid).2 = some "order not found or not owned by user" ↔
      ¬ ∃ r ∈ tbl, r.id = oid ∧ r.userId = uid) ∧
    ((CancelOrder tbl oid uid).2 = some "order not open" ↔
      ∃ r ∈ tbl, r.id = oid ∧ r.userId = uid ∧ r.status ≠ "open") := by
  unfold CancelOrder
  cases hf : tbl.find? (fun r => r.id == oid && r.userId == uid) with
  | none =>
    have hno : ∀ r ∈ tbl, ¬ (r.id = oid ∧ r.userId = uid) := by
      intro r hr hcon
      have := List.find?_eq_none.mp hf r hr
      simp [hcon.1, hcon.2] at this
    constructor
    · exact ⟨fun _ => fun ⟨r, hr, hid, huid⟩ => hno r hr ⟨hid, huid⟩, fun _ => rfl⟩
    · constructor
      · intro h; simp at h
      · rintro ⟨r, hr, hid, huid, -⟩
        exact absurd ⟨hid, huid⟩ (hno r hr)
  | some r =>
    dsimp only
    have hpred := List.find?_some hf
    have hrmem := List.mem_of_find?_eq_some hf
    simp only [Bool.and_eq_true, beq_iff_eq] at hpred
    obtain ⟨hid, huid⟩ := hpred
    by_cases hst : r.status ≠ "open"
    · rw [if_pos hst]
      constructor
      · constructor
        · intro h; simp at h
        · intro hcon; exact absurd ⟨r, hrmem, hid, huid⟩ hcon
      · exact ⟨fun _ => ⟨r, hrmem, hid, huid, hst⟩, fun _ => rfl⟩
    · rw [if_neg hst]
      push_neg at hst
      have hcnt :
          ¬ tbl.countP (fun x => x.id == oid && x.userId == uid && x.status == "open") = 0 := by
        intro h0
        have hall := List.countP_eq_zero.mp h0 r hrmem
        simp [hid, huid, hst] at hall
      rw [if_neg hcnt]
      constructor
      · constructor
        · intro h; simp at h
        · intro hcon; exact absurd ⟨r, hrmem, hid, huid⟩ hcon
      · constructor
        · intro h; simp at h
        · rintro ⟨r2, hr2, hid2, huid2, hopen2⟩
          have hr2r : r2 = r := List.inj_on_of_nodup_map hnd hr2 hrmem (by rw [hid2, hid])
          rw [hr2r] at hopen2
          exact absurd hst hopen2

/-- Witness for the amended C8 theorem: at `tblC8` with requester 3, the
combined error fires exactly because no row has id 1 and owner 3. -/
theorem cancelOrder_error_kinds_witness :
    (CancelOrder tblC8 1 3).2 = some "order not found or not owned by user" ↔
      ¬ ∃ r ∈ tblC8, r.id = 1 ∧ r.userId = 3 :=
  (cancelOrder_error_kinds tblC8 1 3
    (of_decide_eq_true (by with_unfolding_all rfl))).1

/-- Claim C8, counterexample: a cancel by user 3 of order 1 — which exists
but is owned by user 2 (`tblC8`) — fails with *the same* error as a cancel
of order 1 against an empty table, where the order does not exist at all.
The two distinct failure causes (not-owner vs not-found) are therefore not
distinguishable by the caller, refuting the claimed three distinct error
kinds. -/
theorem cancelOrder_conflates_notfound_notowner :
    (CancelOrder tblC8 1 3).2 = (CancelOrder [] 1 3).2 ∧
    (CancelOrder tblC8 1 3).2 = some "order not found or not owned by user" := by
  exact ⟨by with_unfolding_all rfl, by with_unfolding_all rfl⟩

end ExchangeSpec
